import Mathlib

/-!
Verification development for the two pipelines of this repository:

Pipeline A (som.py): credit-card records are min-max scaled, a 10 x 10
self-organizing map is trained on them by an external library, and the
bespoke fraud-cell selector walks the transposed distance map, collecting
(and inverse-scaling) the customers mapped to every cell whose normalized
mean-interneuron-distance score strictly exceeds 0.95, finally
concatenating the per-cell tables.

Pipeline B (K-Means Clustering.py): mall-customer records (two features)
are clustered by an external K-Means routine for K = 1..10, recording the
within-cluster sum-of-squares objective for the elbow method, then fit
once more with K = 5.

External collaborators (the minisom SOM, the sklearn MinMaxScaler and
KMeans) are not part of the repository; they are modelled here from the
contracts stated in the specification (sections 4.1, 4.2, 4.4).  The
bespoke selector logic is translated directly from the source.  Machine
floats are modelled by exact rationals.
-/

namespace SomRepo

/-- Coordinates of one cell of the fixed 10 x 10 SOM grid. -/
abbrev Cell : Type := Fin 10 × Fin 10

/-- One data record with F numeric features, one rational per column. -/
abbrev Row (F : ℕ) : Type := Fin F → ℚ

/-- Squared Euclidean distance between two feature vectors.  The external
SOM compares records to prototypes by Euclidean distance; comparisons of
squared distances order identically, so the square root is omitted. -/
def sqDist {F : ℕ} (u v : Row F) : ℚ :=
  Finset.univ.sum fun k => (u k - v k) * (u k - v k)

/-- Grid cells in the index order of the weights array, the order in which
the external argmin scans the activation map. -/
def cellsByWeightOrder : List Cell :=
  (List.finRange 10).flatMap fun a => (List.finRange 10).map fun b => (a, b)

/-- Modelled from the spec: the winner query of the external SOM trainer
(section 4.2), mapping a feature vector to the grid cell whose prototype is
nearest under Euclidean distance; ties resolve to the first cell in weight
index order, matching the argmin convention. -/
def winner {F : ℕ} (w : Cell → Row F) (x : Row F) : Cell :=
  cellsByWeightOrder.foldl
    (fun best c => if sqDist (w c) x < sqDist (w best) x then c else best)
    ((0 : Fin 10), (0 : Fin 10))

/-- Modelled from the spec: the reverse index of the external SOM trainer
(section 4.2), from cell coordinates to the list of input vectors whose
winner is that cell; cells that never win map to the empty list. -/
def win_map {F : ℕ} (w : Cell → Row F) (xs : List (Row F)) : Cell → List (Row F) :=
  fun c => xs.filter fun x => decide (winner w x = c)

/-- Grid cells in the visit order of the fraud loop of som.py: the loop
walks the transposed distance map row by row with outer index i and inner
index j and names the cell (j, i). -/
def scanCells : List Cell :=
  (List.finRange 10).flatMap fun i => (List.finRange 10).map fun j => (j, i)

/-- Strict visit order on grid cells induced by the fraud loop: the outer
index (second coordinate) dominates, the inner index breaks ties. -/
def scanLt (c d : Cell) : Prop :=
  c.2 < d.2 ∨ (c.2 = d.2 ∧ c.1 < d.1)

instance : DecidableRel scanLt := fun c d => by
  unfold scanLt
  infer_instance

/-- Modelled from the spec: the external min-max feature scaler (section
4.1).  A fitted scaler keeps one multiplicative factor and one additive
offset per column, so that a scaled entry is x * scale + min_. -/
structure MinMaxScaler (F : ℕ) where
  scale : Row F
  min_ : Row F

/-- Minimum of one column over the dataset (0 for an empty dataset, never
used by the pipeline on empty data). -/
def colMin {F : ℕ} (data : List (Row F)) (j : Fin F) : ℚ :=
  match data with
  | [] => 0
  | r :: rs => rs.foldl (fun m x => min m (x j)) (r j)

/-- Maximum of one column over the dataset. -/
def colMax {F : ℕ} (data : List (Row F)) (j : Fin F) : ℚ :=
  match data with
  | [] => 0
  | r :: rs => rs.foldl (fun m x => max m (x j)) (r j)

/-- Modelled from the spec: fitting the external scaler with feature range
(0, 1) on the full dataset.  Per-column factor is the reciprocal of the
column range, with a zero range replaced by factor 1 following the
convention of the external implementation, so the transform is always
invertible. -/
def MinMaxScaler.fit {F : ℕ} (data : List (Row F)) : MinMaxScaler F :=
  { scale := fun j =>
      if colMax data j - colMin data j = 0 then 1
      else 1 / (colMax data j - colMin data j)
    min_ := fun j =>
      0 - colMin data j *
        (if colMax data j - colMin data j = 0 then 1
         else 1 / (colMax data j - colMin data j)) }

/-- Modelled from the spec: the forward transform of one record. -/
def MinMaxScaler.transform_row {F : ℕ} (sc : MinMaxScaler F) (r : Row F) : Row F :=
  fun j => r j * sc.scale j + sc.min_ j

/-- Modelled from the spec: the inverse transform of one record. -/
def MinMaxScaler.inverse_row {F : ℕ} (sc : MinMaxScaler F) (r : Row F) : Row F :=
  fun j => (r j - sc.min_ j) / sc.scale j

/-- Modelled from the spec: the batch inverse transform of the external
scaler, applied by som.py to the table of customers of one winning node.
The external implementation validates its argument as a table with at
least one sample and raises on an empty batch, modelled by none. -/
def MinMaxScaler.inverse_transform {F : ℕ} (sc : MinMaxScaler F)
    (rows : List (Row F)) : Option (List (Row F)) :=
  if rows.isEmpty then none else some (rows.map sc.inverse_row)

/-- Fraud threshold hard-coded in the selector loop of som.py: the literal
0.95, written as the exact rational with numerator 95 and denominator
100. -/
def fraudThreshold : ℚ := Rat.divInt 95 100

/-- Translation of the winning-node selection of som.py lines 132-143:
dist is the transposed distance map, the loop runs i over rows of dist and
j over columns, and appends the cell (j, i) whenever dist i j strictly
exceeds the threshold. -/
def winning_nodes (dmap : Fin 10 → Fin 10 → ℚ) (t : ℚ) : List Cell :=
  let dist := fun i j => dmap j i
  (List.finRange 10).flatMap fun i =>
    (List.finRange 10).filterMap fun j =>
      if t < dist i j then some (j, i) else none

/-- Translation of the per-node body of the fraud loop: for each selected
cell in visit order, look up its customers in the reverse index and
inverse-scale them, failing if the external scaler rejects an empty
batch. -/
def collect_node_tables {F : ℕ} (sc : MinMaxScaler F)
    (mappings : Cell → List (Row F)) : List Cell → Option (List (List (Row F)))
  | [] => some []
  | c :: cs =>
    match sc.inverse_transform (mappings c), collect_node_tables sc mappings cs with
    | some customers, some rest => some (customers :: rest)
    | _, _ => none

/-- Translation of the fraud collection of som.py lines 129-150: select
the winning nodes, build the per-node customer tables, and concatenate
them; concatenating an empty tuple of arrays is an error, modelled by
none. -/
def frauds {F : ℕ} (dmap : Fin 10 → Fin 10 → ℚ) (mappings : Cell → List (Row F))
    (sc : MinMaxScaler F) (t : ℚ) : Option (List (Row F)) :=
  match collect_node_tables sc mappings (winning_nodes dmap t) with
  | none => none
  | some pieces => if pieces.isEmpty then none else some pieces.flatten

/-- Hyperparameters of the SOM trainer as configured in som.py. -/
structure SomHyper where
  sigma : ℚ
  learning_rate : ℚ
  num_iteration : ℕ

/-- The feature part of a raw dataset row: every column except the last,
mirroring the X split of som.py. -/
def featuresOf {F : ℕ} (r : Row (F + 1)) : Row F :=
  fun j => r j.castSucc

/-- The label part of a raw dataset row: the last column, mirroring the y
split of som.py. -/
def labelOf {F : ℕ} (r : Row (F + 1)) : ℚ :=
  r (Fin.last F)

/-- Outputs of Pipeline A: the winning cell of every record in dataset
order, the plot markers (winning cell paired with the approval label), and
the flagged-customer table. -/
structure PipelineAOut (F : ℕ) where
  assignments : List Cell
  markers : List (Cell × ℚ)
  flagged : Option (List (Row F))

/-- Translation of the Pipeline A flow of som.py, parameterized over the
external collaborators: train stands for the seeded SOM training routine
(a deterministic function of hyperparameters, seed and scaled data, as the
spec guarantees in section 5), dmapOf for the normalized distance-map
query of the trained model.  The raw rows are split into features and
label, the features are scaled by a scaler fit on the full dataset, the
SOM is trained on the scaled features only, and the fraud table is
collected with the fixed threshold. -/
def pipelineA {F : ℕ} (train : SomHyper → ℕ → List (Row F) → (Cell → Row F))
    (dmapOf : (Cell → Row F) → Fin 10 → Fin 10 → ℚ)
    (hyper : SomHyper) (seed : ℕ) (rows : List (Row (F + 1))) : PipelineAOut F :=
  let X := rows.map featuresOf
  let y := rows.map labelOf
  let sc := MinMaxScaler.fit X
  let Xs := X.map sc.transform_row
  let w := train hyper seed Xs
  { assignments := Xs.map (winner w)
    markers := (Xs.map (winner w)).zip y
    flagged := frauds (dmapOf w) (win_map w Xs) sc fraudThreshold }

/-- Module-scope state of som.py at the start of the fraud-finding
section: the scaled feature matrix X, the label vector y, the fitted
scaler and the trained SOM, plus the variables the section assigns,
still unset. -/
structure SomProgState (F : ℕ) where
  X : List (Row F)
  y : List ℚ
  sc : MinMaxScaler F
  som : Cell → Row F
  mappings : Option (Cell → List (Row F))
  dist : Option (Fin 10 → Fin 10 → ℚ)
  winning : Option (List Cell)
  fraudsOut : Option (Option (List (Row F)))

/-- Translation of som.py lines 129-150 as a state transformer: the
section assigns mappings, dist, winning_nodes and frauds from the current
state, and writes nothing else. -/
def finding_frauds {F : ℕ} (dmapOf : (Cell → Row F) → Fin 10 → Fin 10 → ℚ)
    (s : SomProgState F) : SomProgState F :=
  { s with
    mappings := some (win_map s.som s.X)
    dist := some (fun i j => dmapOf s.som j i)
    winning := some (winning_nodes (dmapOf s.som) fraudThreshold)
    fraudsOut := some (frauds (dmapOf s.som) (win_map s.som s.X) s.sc fraudThreshold) }

/-- Result of one call of the external K-Means routine: a cluster label
per record and the objective value (inertia). -/
structure KMeansResult where
  labels : List ℕ
  inertia : ℚ

/-- Translation of the elbow loop of K-Means Clustering.py: fit the
external routine for K = 1..10 with a fixed seed and record the objective
value of each fit, in order. -/
def elbow_wcss (fit : ℕ → ℕ → List (Row 2) → KMeansResult) (seed : ℕ)
    (X : List (Row 2)) : List ℚ :=
  (List.range 10).map fun k => (fit seed (k + 1) X).inertia

/-- Translation of Pipeline B, parameterized over the external K-Means
routine as a deterministic function of seed, cluster count and data per
the spec (section 5): the recorded elbow objectives and the final cluster
assignment with K = 5. -/
def pipelineB (fit : ℕ → ℕ → List (Row 2) → KMeansResult) (seed : ℕ)
    (X : List (Row 2)) : List ℚ × List ℕ :=
  (elbow_wcss fit seed X, (fit seed 5 X).labels)

/-- Every grid cell occurs in the scan order of the fraud loop. -/
lemma mem_scanCells (c : Cell) : c ∈ scanCells := by
  unfold scanCells
  rw [List.mem_flatMap]
  exact ⟨c.2, List.mem_finRange _, List.mem_map.mpr ⟨c.1, List.mem_finRange _, rfl⟩⟩

set_option maxRecDepth 40000 in
/-- The scan order visits cells in strictly increasing visit order. -/
lemma scanCells_pairwise : List.Pairwise scanLt scanCells := by decide

/-- The scan order lists every cell exactly once. -/
lemma scanCells_nodup : scanCells.Nodup := by
  refine scanCells_pairwise.imp ?_
  intro a b hab
  intro hEq
  subst hEq
  rcases hab with h | ⟨-, h⟩ <;> exact absurd h (lt_irrefl _)

/-- Counting an element in a filtered list, conditional form. -/
lemma count_filter_eq {α : Type} [DecidableEq α] (p : α → Bool) (a : α)
    (xs : List α) :
    (xs.filter p).count a = if p a then xs.count a else 0 := by
  induction xs with
  | nil => simp
  | cons x xs ih =>
    rw [List.filter_cons]
    by_cases hpa : p a
    · by_cases hpx : p x
      · rw [if_pos hpx, List.count_cons, List.count_cons, ih, if_pos hpa, if_pos hpa]
      · have hax : ¬(x = a) := fun h => hpx (h ▸ hpa)
        rw [if_neg hpx, ih, if_pos hpa, List.count_cons, if_pos hpa]
        simp [hax]
    · by_cases hpx : p x
      · have hax : ¬(x = a) := fun h => hpa (h ▸ hpx)
        rw [if_pos hpx, List.count_cons, ih, if_neg hpa, if_neg hpa]
        simp [hax]
      · rw [if_neg hpx, ih, if_neg hpa, if_neg hpa]

/-- One row of the selector loop, rewritten from filterMap to a filter over
the cells of that row. -/
lemma selector_row_eq_filter (dmap : Fin 10 → Fin 10 → ℚ) (t : ℚ) (i : Fin 10)
    (l : List (Fin 10)) :
    (l.filterMap fun j => if t < dmap j i then some ((j, i) : Cell) else none)
      = (l.map fun j => ((j, i) : Cell)).filter fun c => decide (t < dmap c.1 c.2) := by
  induction l with
  | nil => rfl
  | cons j l ih =>
    rw [List.filterMap_cons, List.map_cons, List.filter_cons]
    by_cases h : t < dmap j i
    · simp only [if_pos h, ih]
      simp [h]
    · simp only [if_neg h, ih]
      simp [h]

/-- Generalization of the winning-node selection over the outer loop list:
selecting with the threshold test commutes with enumerating the cells. -/
lemma selector_flatMap_eq_filter (dmap : Fin 10 → Fin 10 → ℚ) (t : ℚ) :
    ∀ L : List (Fin 10),
      (L.flatMap fun i =>
          (List.finRange 10).filterMap fun j =>
            if t < dmap j i then some ((j, i) : Cell) else none)
        = (L.flatMap fun i => (List.finRange 10).map fun j => ((j, i) : Cell)).filter
            fun c => decide (t < dmap c.1 c.2) := by
  intro L
  induction L with
  | nil => rfl
  | cons i L ih =>
    rw [List.flatMap_cons, List.flatMap_cons, List.filter_append, ih,
      selector_row_eq_filter]

/-- The winning-node list is the scan order filtered by the threshold test
on the untransposed distance map. -/
lemma winning_nodes_eq_filter (dmap : Fin 10 → Fin 10 → ℚ) (t : ℚ) :
    winning_nodes dmap t = scanCells.filter fun c => decide (t < dmap c.1 c.2) := by
  show ((List.finRange 10).flatMap fun i =>
      (List.finRange 10).filterMap fun j => if t < dmap j i then some ((j, i) : Cell) else none)
    = scanCells.filter fun c => decide (t < dmap c.1 c.2)
  unfold scanCells
  exact selector_flatMap_eq_filter dmap t (List.finRange 10)

/-- Membership in the winning-node list is exactly the strict threshold
test on the score of the cell. -/
lemma mem_winning_nodes (dmap : Fin 10 → Fin 10 → ℚ) (t : ℚ) (c : Cell) :
    c ∈ winning_nodes dmap t ↔ t < dmap c.1 c.2 := by
  rw [winning_nodes_eq_filter, List.mem_filter]
  simp [mem_scanCells]

/-- The winning-node list has no duplicate cells. -/
lemma winning_nodes_nodup (dmap : Fin 10 → Fin 10 → ℚ) (t : ℚ) :
    (winning_nodes dmap t).Nodup := by
  rw [winning_nodes_eq_filter]
  exact scanCells_nodup.filter _

/-- Counting a record across the reverse-index entries of a duplicate-free
cell list: the record is counted once per occurrence in the input when its
winner is listed, and never otherwise. -/
lemma count_flatMap_win_map {F : ℕ} (w : Cell → Row F) (xs : List (Row F))
    (a : Row F) :
    ∀ S : List Cell, S.Nodup →
      ((S.flatMap fun c => win_map w xs c).count a)
        = if winner w a ∈ S then xs.count a else 0 := by
  intro S
  induction S with
  | nil => simp
  | cons c S ih =>
    intro hnd
    obtain ⟨hcS, hndS⟩ := List.nodup_cons.mp hnd
    rw [List.flatMap_cons, List.count_append]
    show ((xs.filter fun x => decide (winner w x = c)).count a) + _ = _
    rw [count_filter_eq, ih hndS]
    by_cases hwc : winner w a = c
    · rw [if_pos (by simp [hwc]), if_neg (by rw [hwc]; exact hcS),
        if_pos (by simp [hwc])]
      exact Nat.add_zero _
    · rw [if_neg (by simp [hwc])]
      by_cases hwS : winner w a ∈ S
      · rw [if_pos hwS, if_pos (List.mem_cons_of_mem _ hwS)]
        exact Nat.zero_add _
      · rw [if_neg hwS, if_neg (by simp [hwc, hwS])]

/-- Mapping a function over the per-cell tables before flattening is the
same as flattening first. -/
lemma flatMap_map_comm {F : ℕ} (f : Cell → List (Row F)) (g : Row F → Row F) :
    ∀ S : List Cell,
      (S.flatMap fun c => (f c).map g) = (S.flatMap f).map g := by
  intro S
  induction S with
  | nil => rfl
  | cons c S ih => rw [List.flatMap_cons, List.flatMap_cons, List.map_append, ih]

/-- Characterization of a successful per-node collection pass: it returns
exactly the inverse-scaled table of every listed cell, and every listed
cell had a nonempty customer list. -/
lemma collect_eq_some {F : ℕ} (sc : MinMaxScaler F) (m : Cell → List (Row F)) :
    ∀ (S : List Cell) (ps : List (List (Row F))),
      collect_node_tables sc m S = some ps →
      ps = S.map (fun c => (m c).map sc.inverse_row) ∧ ∀ c ∈ S, m c ≠ [] := by
  intro S
  induction S with
  | nil =>
    intro ps h
    have h2 : some ([] : List (List (Row F))) = some ps := h
    refine ⟨(Option.some.inj h2).symm, ?_⟩
    intro c hc
    exact absurd hc (List.not_mem_nil c)
  | cons c S ih =>
    intro ps h
    unfold collect_node_tables at h
    unfold MinMaxScaler.inverse_transform at h
    by_cases hmc : (m c).isEmpty
    · rw [if_pos hmc] at h
      exact absurd h (by simp)
    · rw [if_neg hmc] at h
      cases hrest : collect_node_tables sc m S with
      | none =>
        rw [hrest] at h
        exact absurd h (by simp)
      | some rest =>
        rw [hrest] at h
        have h2 : some ((m c).map sc.inverse_row :: rest) = some ps := h
        obtain ⟨hmap, hne⟩ := ih rest hrest
        refine ⟨?_, ?_⟩
        · rw [← Option.some.inj h2, List.map_cons, hmap]
        · intro d hd
          rcases List.mem_cons.mp hd with hdc | hdS
          · subst hdc
            intro hnil
            rw [hnil] at hmc
            exact hmc rfl
          · exact hne d hdS

/-- Characterization of a successful fraud collection: the flagged table is
the concatenation, in scan order, of the inverse-scaled customer tables of
the winning nodes; moreover at least one node won and every winning node
had customers. -/
lemma frauds_eq_some {F : ℕ} {dmap : Fin 10 → Fin 10 → ℚ}
    {m : Cell → List (Row F)} {sc : MinMaxScaler F} {t : ℚ} {l : List (Row F)}
    (h : frauds dmap m sc t = some l) :
    l = (winning_nodes dmap t).flatMap (fun c => (m c).map sc.inverse_row)
      ∧ winning_nodes dmap t ≠ [] ∧ ∀ c ∈ winning_nodes dmap t, m c ≠ [] := by
  unfold frauds at h
  cases hc : collect_node_tables sc m (winning_nodes dmap t) with
  | none =>
    rw [hc] at h
    exact absurd h (by simp)
  | some ps =>
    rw [hc] at h
    have h2 : (if ps.isEmpty then none else some ps.flatten) = some l := h
    by_cases hps : ps.isEmpty
    · rw [if_pos hps] at h2
      exact absurd h2 (by simp)
    · rw [if_neg hps] at h2
      obtain ⟨hmap, hne⟩ := collect_eq_some sc m _ ps hc
      refine ⟨?_, ?_, hne⟩
      · rw [← Option.some.inj h2, hmap]
        rfl
      · intro hwn
        rw [hwn] at hmap
        rw [hmap] at hps
        exact hps rfl

end SomRepo

namespace SomRepo

/-- The per-column factor of a fitted scaler is never zero. -/
lemma fit_scale_ne_zero {F : ℕ} (data : List (Row F)) (j : Fin F) :
    (MinMaxScaler.fit data).scale j ≠ 0 := by
  show (if colMax data j - colMin data j = 0 then (1:ℚ)
      else 1 / (colMax data j - colMin data j)) ≠ 0
  split_ifs with h
  · exact one_ne_zero
  · exact one_div_ne_zero h

/-- C4: scaling round-trip.  For every record of the dataset the scaler
was fit on, applying the fitted min-max transform and then its inverse
reconstructs the record exactly in exact rational arithmetic. -/
theorem minmax_scaling_round_trip {F : ℕ} (data : List (Row F)) (r : Row F)
    (_hr : r ∈ data) :
    (MinMaxScaler.fit data).inverse_row
      ((MinMaxScaler.fit data).transform_row r) = r := by
  funext j
  show ((r j * (MinMaxScaler.fit data).scale j + (MinMaxScaler.fit data).min_ j)
      - (MinMaxScaler.fit data).min_ j) / (MinMaxScaler.fit data).scale j = r j
  rw [add_sub_cancel_right, mul_div_cancel_right₀ _ (fit_scale_ne_zero data j)]

/-- Witness for C4 at a concrete one-column dataset holding the single
record with value 7. -/
theorem minmax_scaling_round_trip_witness :
    (fun _ : Fin 1 => (7:ℚ)) ∈ [fun _ : Fin 1 => (7:ℚ)]
      ∧ (MinMaxScaler.fit [fun _ : Fin 1 => (7:ℚ)]).inverse_row
          ((MinMaxScaler.fit [fun _ : Fin 1 => (7:ℚ)]).transform_row
            (fun _ : Fin 1 => (7:ℚ)))
        = fun _ : Fin 1 => (7:ℚ) :=
  ⟨List.mem_singleton_self _,
   minmax_scaling_round_trip _ _ (List.mem_singleton_self _)⟩

/-- Counting the occurrences of a member of a duplicate-free list by an
equality test gives exactly one. -/
lemma countP_eq_one_of_nodup_mem {α : Type} [DecidableEq α] :
    ∀ (l : List α), l.Nodup → ∀ a ∈ l, (l.countP fun c => decide (a = c)) = 1 := by
  intro l
  induction l with
  | nil =>
    intro _ a ha
    exact absurd ha (List.not_mem_nil a)
  | cons x l ih =>
    intro hnd a ha
    obtain ⟨hxl, hndl⟩ := List.nodup_cons.mp hnd
    rw [List.countP_cons]
    rcases List.mem_cons.mp ha with hax | hal
    · subst hax
      rw [List.countP_eq_zero.mpr, if_pos (by simp)]
      intro b hb
      simp only [decide_eq_true_eq]
      intro hab
      exact hxl (hab ▸ hb)
    · rw [ih hndl a hal, if_neg (by simp; intro hax; exact hxl (hax ▸ hal))]

/-- C5: partition property.  Every record has exactly one winning cell
among the grid cells, and the reverse index restricted to the full grid
splits the input list into per-cell lists whose concatenation is a
permutation of the input: no record is lost or duplicated. -/
theorem win_map_partitions_input {F : ℕ} (w : Cell → Row F) (xs : List (Row F)) :
    (∀ x : Row F, (scanCells.countP fun c => decide (winner w x = c)) = 1)
      ∧ List.Perm (scanCells.flatMap fun c => win_map w xs c) xs := by
  constructor
  · intro x
    exact countP_eq_one_of_nodup_mem scanCells scanCells_nodup _ (mem_scanCells _)
  · rw [List.perm_iff_count]
    intro a
    rw [count_flatMap_win_map w xs a scanCells scanCells_nodup,
      if_pos (mem_scanCells _)]

/-- C7: deterministic row-major enumeration.  The winning-node list is the
fixed scan order of the grid filtered by the threshold test, and is
strictly increasing in the scan order; the selection is a pure function of
the distance map and threshold, so repeated evaluations agree. -/
theorem fraud_scan_row_major_deterministic (dmap : Fin 10 → Fin 10 → ℚ) (t : ℚ) :
    winning_nodes dmap t = (scanCells.filter fun c => decide (t < dmap c.1 c.2))
      ∧ List.Pairwise scanLt (winning_nodes dmap t) := by
  refine ⟨winning_nodes_eq_filter dmap t, ?_⟩
  rw [winning_nodes_eq_filter]
  exact scanCells_pairwise.sublist (List.filter_sublist _)

/-- C3: threshold monotonicity.  With the higher threshold t1, every
flagged record is also flagged with the lower threshold t2, whenever both
collections succeed. -/
theorem frauds_threshold_monotone {F : ℕ} (dmap : Fin 10 → Fin 10 → ℚ)
    (m : Cell → List (Row F)) (sc : MinMaxScaler F) (t1 t2 : ℚ)
    (l1 l2 : List (Row F)) (hts : t2 ≤ t1)
    (h1 : frauds dmap m sc t1 = some l1) (h2 : frauds dmap m sc t2 = some l2) :
    l1 ⊆ l2 := by
  obtain ⟨hl1, -, -⟩ := frauds_eq_some h1
  obtain ⟨hl2, -, -⟩ := frauds_eq_some h2
  rw [hl1, hl2]
  intro a ha
  rw [List.mem_flatMap] at ha ⊢
  obtain ⟨c, hc, hac⟩ := ha
  refine ⟨c, ?_, hac⟩
  rw [mem_winning_nodes] at hc ⊢
  exact lt_of_le_of_lt hts hc

/-- C1: the flagged table is exactly the inverse-scaled records whose
winning cell scores strictly above the 0.95 threshold.  Whenever the
collection succeeds, the flagged list is a permutation of the input
records filtered by the threshold test at their winning cell and mapped
through the inverse transform; in particular no record of a cell at or
below the threshold appears. -/
theorem frauds_exactly_records_of_high_mid_cells {F : ℕ} (w : Cell → Row F)
    (xs : List (Row F)) (dmap : Fin 10 → Fin 10 → ℚ) (sc : MinMaxScaler F)
    (l : List (Row F))
    (h : frauds dmap (win_map w xs) sc fraudThreshold = some l) :
    List.Perm l
      ((xs.filter fun x =>
          decide (fraudThreshold < dmap (winner w x).1 (winner w x).2)).map
        sc.inverse_row) := by
  obtain ⟨hl, -, -⟩ := frauds_eq_some h
  rw [hl, flatMap_map_comm]
  refine List.Perm.map _ ?_
  rw [List.perm_iff_count]
  intro a
  rw [count_flatMap_win_map w xs a _ (winning_nodes_nodup dmap fraudThreshold),
    count_filter_eq]
  by_cases hwin : fraudThreshold < dmap (winner w a).1 (winner w a).2
  · rw [if_pos ((mem_winning_nodes _ _ _).mpr hwin), if_pos (by simp [hwin])]
  · rw [if_neg (fun hmem => hwin ((mem_winning_nodes _ _ _).mp hmem)),
      if_neg (by simp [hwin])]

/-- C8: an empty selection is an error, not an empty table.  If no cell
scores strictly above the threshold, the collection fails (concatenation
of an empty tuple); and a successful collection never returns an empty
flagged table. -/
theorem frauds_fails_when_no_cell_exceeds_threshold {F : ℕ}
    (dmap : Fin 10 → Fin 10 → ℚ) (m : Cell → List (Row F)) (sc : MinMaxScaler F) :
    ((∀ c : Cell, dmap c.1 c.2 ≤ fraudThreshold) →
        frauds dmap m sc fraudThreshold = none)
      ∧ ∀ l, frauds dmap m sc fraudThreshold = some l → l ≠ [] := by
  constructor
  · intro hall
    have hwn : winning_nodes dmap fraudThreshold = [] := by
      rw [List.eq_nil_iff_forall_not_mem]
      intro c hc
      rw [mem_winning_nodes] at hc
      exact absurd hc (not_lt.mpr (hall c))
    unfold frauds
    rw [hwn]
    rfl
  · intro l h
    obtain ⟨hl, hne, hmem⟩ := frauds_eq_some h
    cases hS : winning_nodes dmap fraudThreshold with
    | nil => exact absurd hS hne
    | cons c0 S =>
      rw [hS, List.flatMap_cons] at hl
      intro hnil
      rw [hnil] at hl
      obtain ⟨hm0, -⟩ := List.append_eq_nil.mp hl.symm
      exact hmem c0 (by rw [hS]; exact List.mem_cons_self c0 S)
        (List.map_eq_nil_iff.mp hm0)

end SomRepo

namespace SomRepo

set_option maxHeartbeats 1000000 in
/-- Witness for C1: a distance map scoring only cell (0, 0) above the
threshold, a single record whose winner is (0, 0), and the collected
table. -/
theorem frauds_exactly_records_of_high_mid_cells_witness :
    frauds (fun a b => if a = 0 ∧ b = 0 then 1 else 0)
        (win_map (fun _ => (Fin.elim0 : Row 0)) [(Fin.elim0 : Row 0)])
        ⟨Fin.elim0, Fin.elim0⟩ fraudThreshold
      = some [MinMaxScaler.inverse_row ⟨Fin.elim0, Fin.elim0⟩ (Fin.elim0 : Row 0)]
      ∧ List.Perm [MinMaxScaler.inverse_row ⟨Fin.elim0, Fin.elim0⟩ (Fin.elim0 : Row 0)]
          (([(Fin.elim0 : Row 0)].filter fun x =>
              decide (fraudThreshold <
                (fun a b => if a = 0 ∧ b = 0 then (1:ℚ) else 0)
                  (winner (fun _ => (Fin.elim0 : Row 0)) x).1
                  (winner (fun _ => (Fin.elim0 : Row 0)) x).2)).map
            (MinMaxScaler.inverse_row ⟨Fin.elim0, Fin.elim0⟩)) :=
  ⟨by decide,
   frauds_exactly_records_of_high_mid_cells (fun _ => (Fin.elim0 : Row 0))
     [(Fin.elim0 : Row 0)] (fun a b => if a = 0 ∧ b = 0 then 1 else 0)
     ⟨Fin.elim0, Fin.elim0⟩
     [MinMaxScaler.inverse_row ⟨Fin.elim0, Fin.elim0⟩ (Fin.elim0 : Row 0)]
     (by decide)⟩

set_option maxHeartbeats 1000000 in
/-- Witness for C3: thresholds 1 and 0 around a map scoring cell (0, 0) at
2, with a constant reverse index; both collections succeed and the flagged
tables nest. -/
theorem frauds_threshold_monotone_witness :
    ((0:ℚ) ≤ 1)
      ∧ frauds (fun a b => if a = 0 ∧ b = 0 then 2 else 0)
          (fun _ => [(Fin.elim0 : Row 0)]) ⟨Fin.elim0, Fin.elim0⟩ 1
        = some [MinMaxScaler.inverse_row ⟨Fin.elim0, Fin.elim0⟩ (Fin.elim0 : Row 0)]
      ∧ frauds (fun a b => if a = 0 ∧ b = 0 then 2 else 0)
          (fun _ => [(Fin.elim0 : Row 0)]) ⟨Fin.elim0, Fin.elim0⟩ 0
        = some [MinMaxScaler.inverse_row ⟨Fin.elim0, Fin.elim0⟩ (Fin.elim0 : Row 0)]
      ∧ [MinMaxScaler.inverse_row ⟨Fin.elim0, Fin.elim0⟩ (Fin.elim0 : Row 0)]
          ⊆ [MinMaxScaler.inverse_row ⟨Fin.elim0, Fin.elim0⟩ (Fin.elim0 : Row 0)] :=
  ⟨by decide, by decide, by decide,
   frauds_threshold_monotone (fun a b => if a = 0 ∧ b = 0 then 2 else 0)
     (fun _ => [(Fin.elim0 : Row 0)]) ⟨Fin.elim0, Fin.elim0⟩ 1 0
     [MinMaxScaler.inverse_row ⟨Fin.elim0, Fin.elim0⟩ (Fin.elim0 : Row 0)]
     [MinMaxScaler.inverse_row ⟨Fin.elim0, Fin.elim0⟩ (Fin.elim0 : Row 0)]
     (by decide) (by decide) (by decide)⟩

set_option maxHeartbeats 1000000 in
/-- Witness for C8: an all-zero distance map makes the collection fail,
and a successful collection at a concrete input is nonempty. -/
theorem frauds_fails_when_no_cell_exceeds_threshold_witness :
    (∀ c : Cell, (fun _ _ : Fin 10 => (0:ℚ)) c.1 c.2 ≤ fraudThreshold)
      ∧ frauds (fun _ _ => (0:ℚ)) (fun _ => [(Fin.elim0 : Row 0)])
          ⟨Fin.elim0, Fin.elim0⟩ fraudThreshold = none
      ∧ frauds (fun a b => if a = 0 ∧ b = 0 then 1 else 0)
          (fun _ => [(Fin.elim0 : Row 0)]) ⟨Fin.elim0, Fin.elim0⟩ fraudThreshold
        = some [MinMaxScaler.inverse_row ⟨Fin.elim0, Fin.elim0⟩ (Fin.elim0 : Row 0)]
      ∧ ([MinMaxScaler.inverse_row ⟨Fin.elim0, Fin.elim0⟩ (Fin.elim0 : Row 0)]
          : List (Row 0)) ≠ [] :=
  ⟨by decide,
   (frauds_fails_when_no_cell_exceeds_threshold (fun _ _ => (0:ℚ))
       (fun _ => [(Fin.elim0 : Row 0)]) ⟨Fin.elim0, Fin.elim0⟩).1 (by decide),
   by decide,
   (frauds_fails_when_no_cell_exceeds_threshold
       (fun a b => if a = 0 ∧ b = 0 then 1 else 0)
       (fun _ => [(Fin.elim0 : Row 0)]) ⟨Fin.elim0, Fin.elim0⟩).2
     [MinMaxScaler.inverse_row ⟨Fin.elim0, Fin.elim0⟩ (Fin.elim0 : Row 0)]
     (by decide)⟩

/-- C10: frame property of the fraud-finding section.  The state
transformer of som.py lines 129-150 leaves the scaled feature matrix, the
label vector, the fitted scaler and the trained SOM untouched; it only
assigns the four new variables. -/
theorem fraud_stage_frame_property {F : ℕ}
    (dmapOf : (Cell → Row F) → Fin 10 → Fin 10 → ℚ) (s : SomProgState F) :
    (finding_frauds dmapOf s).X = s.X ∧ (finding_frauds dmapOf s).y = s.y
      ∧ (finding_frauds dmapOf s).sc = s.sc
      ∧ (finding_frauds dmapOf s).som = s.som :=
  ⟨rfl, rfl, rfl, rfl⟩

/-- C9: noninterference of the approval label.  Two raw datasets agreeing
on all feature columns produce the same flagged-customer table, whatever
their label columns hold: the label feeds only the plot markers. -/
theorem approval_label_noninterference {F : ℕ}
    (train : SomHyper → ℕ → List (Row F) → (Cell → Row F))
    (dmapOf : (Cell → Row F) → Fin 10 → Fin 10 → ℚ) (hyper : SomHyper)
    (seed : ℕ) (rows1 rows2 : List (Row (F + 1)))
    (h : rows1.map featuresOf = rows2.map featuresOf) :
    (pipelineA train dmapOf hyper seed rows1).flagged
      = (pipelineA train dmapOf hyper seed rows2).flagged := by
  simp only [pipelineA]
  rw [h]

/-- Witness for C9: two one-record datasets with equal (empty) feature
parts and different labels. -/
theorem approval_label_noninterference_witness :
    ([fun _ : Fin 1 => (0:ℚ)].map featuresOf = [fun _ : Fin 1 => (1:ℚ)].map featuresOf)
      ∧ (pipelineA (fun _ _ _ => fun _ => (Fin.elim0 : Row 0)) (fun _ _ _ => 0)
            ⟨1, 1/2, 100⟩ 0 [fun _ : Fin 1 => (0:ℚ)]).flagged
        = (pipelineA (fun _ _ _ => fun _ => (Fin.elim0 : Row 0)) (fun _ _ _ => 0)
            ⟨1, 1/2, 100⟩ 0 [fun _ : Fin 1 => (1:ℚ)]).flagged :=
  ⟨by decide, approval_label_noninterference _ _ _ _ _ _ (by decide)⟩

/-- C2: determinism under a fixed seed.  Both pipelines are modelled with
the external trainers as deterministic functions of seed, hyperparameters
and data, as the spec guarantees; two runs agreeing on those inputs yield
identical outputs, including the cell assignments, the flagged table, and
the recorded objective values and labels. -/
theorem pipelines_deterministic_under_fixed_seed :
    (∀ (F : ℕ) (train : SomHyper → ℕ → List (Row F) → (Cell → Row F))
        (dmapOf : (Cell → Row F) → Fin 10 → Fin 10 → ℚ) (h1 h2 : SomHyper)
        (s1 s2 : ℕ) (rows1 rows2 : List (Row (F + 1))),
        h1 = h2 → s1 = s2 → rows1 = rows2 →
        pipelineA train dmapOf h1 s1 rows1 = pipelineA train dmapOf h2 s2 rows2)
      ∧ ∀ (km : ℕ → ℕ → List (Row 2) → KMeansResult) (s1 s2 : ℕ)
          (X1 X2 : List (Row 2)), s1 = s2 → X1 = X2 →
          pipelineB km s1 X1 = pipelineB km s2 X2 := by
  constructor
  · intro F train dmapOf h1 h2 s1 s2 rows1 rows2 hh hs hrows
    rw [hh, hs, hrows]
  · intro km s1 s2 X1 X2 hs hX
    rw [hs, hX]

/-- Witness for C2 at concrete trivial collaborators and empty datasets. -/
theorem pipelines_deterministic_under_fixed_seed_witness :
    pipelineA (fun _ _ _ => fun _ => (Fin.elim0 : Row 0)) (fun _ _ _ => 0)
        ⟨1, 1/2, 100⟩ 0 ([] : List (Row 1))
      = pipelineA (fun _ _ _ => fun _ => (Fin.elim0 : Row 0)) (fun _ _ _ => 0)
        ⟨1, 1/2, 100⟩ 0 ([] : List (Row 1))
    ∧ pipelineB (fun _ _ _ => ⟨[], 0⟩) 0 [] = pipelineB (fun _ _ _ => ⟨[], 0⟩) 0 [] :=
  ⟨pipelines_deterministic_under_fixed_seed.1 0 _ _ _ _ _ _ _ _ rfl rfl rfl,
   pipelines_deterministic_under_fixed_seed.2 _ _ _ _ _ rfl rfl⟩

end SomRepo
